import Mathlib

/-!
Verification of `src/LeetCodeTraining/image_toggle_gallery.py`.

The Python class `ImageToggleGallery` keeps three insertion-ordered
dictionaries: `image_sets : dict[str, str]` (page name to HTML),
`_buttons : dict[str, ToggleButton]` and `_outputs : dict[str, Output]`.
We model a Python `dict` as an association list in insertion order with
the usual dict operations:

  * assignment `d[k] = v` updates the entry in place when `k` is present
    (keeping its position) and appends `(k, v)` at the end otherwise;
  * `d.pop(k, None)` removes the entry;
  * iteration (`for k in d`) runs over keys in insertion order.

A `ToggleButton` carries its observable state: `value` (open flag) and
`description` (label).  An `Output` widget is modelled by its displayed
content: `none` after `clear_output()`, `some h` after rendering HTML `h`.

Assigning `btn.value = x` in ipywidgets fires the `observe`d handler
`_on_toggle` synchronously whenever the value actually changes; the model
inlines that nested handler call at every assignment site.  A failed
dictionary lookup raises `KeyError`, modelled by returning `none` from the
event handlers.
-/

/-- One entry behind a Python `dict` key. -/
abbrev Dict (α : Type) : Type := List (String × α)


/-- Dictionary lookup `d[k]` (first entry with key `k`). -/
def dfind {α : Type} (d : Dict α) (k : String) : Option α :=
  match d with
  | [] => none
  | (k', v) :: rest => if k' = k then some v else dfind rest k


/-- Python `k in d`. -/
def dcontains {α : Type} (d : Dict α) (k : String) : Bool :=
  (dfind d k).isSome


/-- The keys of a dictionary, in insertion order (Python `list(d)`). -/
def dkeys {α : Type} (d : Dict α) : List String :=
  d.map Prod.fst


/-- Replace the value at key `k` (used by `dset` when the key is present). -/
def drep {α : Type} (d : Dict α) (k : String) (v : α) : Dict α :=
  d.map (fun p => if p.1 = k then (k, v) else p)


/-- Python assignment `d[k] = v`: in-place update when present, append otherwise. -/
def dset {α : Type} (d : Dict α) (k : String) (v : α) : Dict α :=
  if dcontains d k then drep d k v else d ++ [(k, v)]


/-- Python `d.pop(k, None)` restricted to its effect on the dictionary. -/
def dpop {α : Type} (d : Dict α) (k : String) : Dict α :=
  d.filter (fun p => p.1 ≠ k)


/-- Observable state of an `ipywidgets.ToggleButton`: its `value` (open flag)
and its `description` (label text). -/
structure ToggleButton where
  value : Bool
  description : String
deriving DecidableEq, Repr


/-- State of an `ImageToggleGallery` object: the `image_sets` dict, the
`_buttons` and `_outputs` runtime dicts, and `rows`, the page names of the
widget tree built by the last `refresh` in display order. -/
structure Gallery where
  image_sets : Dict String
  buttons : Dict ToggleButton
  outputs : Dict (Option String)
  rows : List String
deriving DecidableEq, Repr


/-- `add_set`: `self.image_sets[name] = html`. -/
def add_set (g : Gallery) (name html : String) : Gallery :=
  { g with image_sets := dset g.image_sets name html }


/-- `remove_set`: `self.image_sets.pop(name, None)`. -/
def remove_set (g : Gallery) (name : String) : Gallery :=
  { g with image_sets := dpop g.image_sets name }


/-- `replace_set`: `self.image_sets[name] = html`. -/
def replace_set (g : Gallery) (name html : String) : Gallery :=
  { g with image_sets := dset g.image_sets name html }


/-- `rename_set`: `if old in self.image_sets: self.image_sets[new] = self.image_sets.pop(old)`. -/
def rename_set (g : Gallery) (old new : String) : Gallery :=
  match dfind g.image_sets old with
  | none => g
  | some v => { g with image_sets := dset (dpop g.image_sets old) new v }


/-- `refresh`: clears `_buttons` and `_outputs`, then per page creates a
`ToggleButton(description=f"Show {name}", value=False)` and an empty
`Output`, and rebuilds the widget rows in `image_sets` iteration order. -/
def refresh (g : Gallery) : Gallery :=
  { g with
    buttons := g.image_sets.map
      (fun p => (p.1, { value := false, description := "Show " ++ p.1 : ToggleButton })),
    outputs := g.image_sets.map (fun p => (p.1, (none : Option String))),
    rows := dkeys g.image_sets }


/-- Assignment `self._buttons[name].description = desc` (a `KeyError` when
`name` is not a key of `_buttons` is modelled by `none`). -/
def setDescription (g : Gallery) (name desc : String) : Option Gallery :=
  match dfind g.buttons name with
  | none => none
  | some b => some { g with buttons := dset g.buttons name { b with description := desc } }


/-- `_hide_html`: `with self._outputs[name]: clear_output()`. -/
def hide_html (g : Gallery) (name : String) : Option Gallery :=
  match dfind g.outputs name with
  | none => none
  | some _ => some { g with outputs := dset g.outputs name none }


/-- The `change["new"] is False` branch of `_on_toggle`: `_hide_html` plus
the label reset.  Assigning `value = False` to an open button fires this
handler synchronously through `observe`. -/
def on_toggle_false (g : Gallery) (name : String) : Option Gallery :=
  match hide_html g name with
  | none => none
  | some g1 => setDescription g1 name ("Show " ++ name)


/-- One iteration of the `for other in self.image_sets` loop body of
`_show_html`: clear `self._outputs[other]`, then if `self._buttons[other]`
is open set its value to `False`, which fires `_on_toggle` with a `False`
new value. -/
def clear_and_close (g : Gallery) (other : String) : Option Gallery :=
  match dfind g.outputs other with
  | none => none
  | some _ =>
    let g1 : Gallery := { g with outputs := dset g.outputs other none }
    match dfind g1.buttons other with
    | none => none
    | some b =>
      if b.value then
        on_toggle_false { g1 with buttons := dset g1.buttons other { b with value := false } } other
      else
        some g1


/-- The `for other in self.image_sets: if other != name: ...` loop of
`_show_html`, run over the key list of `image_sets`. -/
def closeOthers (name : String) (g : Gallery) : List String → Option Gallery
  | [] => some g
  | other :: rest =>
    if other = name then closeOthers name g rest
    else
      match clear_and_close g other with
      | none => none
      | some g1 => closeOthers name g1 rest


/-- `_show_html`: render `self.image_sets[name]` into `self._outputs[name]`
(clear, then display), then close everyone else. -/
def show_html (g : Gallery) (name : String) : Option Gallery :=
  match dfind g.outputs name with
  | none => none
  | some _ =>
    match dfind g.image_sets name with
    | none => none
    | some html =>
      closeOthers name { g with outputs := dset g.outputs name (some html) } (dkeys g.image_sets)


/-- `_on_toggle` for a change event on trait `"value"` with new value
`newValue`. -/
def on_toggle (g : Gallery) (name : String) (newValue : Bool) : Option Gallery :=
  if newValue then
    match show_html g name with
    | none => none
    | some g1 => setDescription g1 name ("Hide " ++ name)
  else
    on_toggle_false g name


/-- A user click on the toggle button `name`: the widget flips its `value`
trait and `observe` delivers the change event to `_on_toggle`. -/
def toggle_event (g : Gallery) (name : String) : Option Gallery :=
  match dfind g.buttons name with
  | none => none
  | some b =>
    on_toggle { g with buttons := dset g.buttons name { b with value := !b.value } } name (!b.value)


/-- One iteration of the `for name in self.image_sets` loop of `_close_all`:
if `self._buttons[name].value` force it to `False` (firing `_on_toggle`),
else `_hide_html(name)`; then reset the description. -/
def closeAllStep (g : Gallery) (name : String) : Option Gallery :=
  match dfind g.buttons name with
  | none => none
  | some b =>
    let r : Option Gallery :=
      if b.value then
        on_toggle_false { g with buttons := dset g.buttons name { b with value := false } } name
      else
        hide_html g name
    match r with
    | none => none
    | some g2 => setDescription g2 name ("Show " ++ name)


/-- The loop of `_close_all` over a key list. -/
def close_all_go (g : Gallery) : List String → Option Gallery
  | [] => some g
  | n :: rest =>
    match closeAllStep g n with
    | none => none
    | some g1 => close_all_go g1 rest


/-- `_close_all`: the "Close all pages" click handler. -/
def close_all (g : Gallery) : Option Gallery :=
  close_all_go g (dkeys g.image_sets)


/-- Deliver a sequence of toggle clicks. -/
def runToggles (g : Gallery) : List String → Option Gallery
  | [] => some g
  | n :: rest =>
    match toggle_event g n with
    | none => none
    | some g1 => runToggles g1 rest


/-- The runtime dicts are in sync with `image_sets`: same keys in the same
order, and the keys are distinct (automatic for a Python dict).  This holds
after every `refresh` and is preserved by the event handlers. -/
def Synced (g : Gallery) : Prop :=
  dkeys g.buttons = dkeys g.image_sets ∧ dkeys g.outputs = dkeys g.image_sets ∧
    (dkeys g.image_sets).Nodup


instance (g : Gallery) : Decidable (Synced g) := by
  unfold Synced
  infer_instance


/-- Number of button entries whose toggle is open. -/
def openCount (g : Gallery) : Nat :=
  (g.buttons.filter (fun p => p.2.value)).length


/-- The exclusivity invariant: at most one toggle is open. -/
def atMostOneOpen (g : Gallery) : Prop :=
  openCount g ≤ 1


instance (g : Gallery) : Decidable (atMostOneOpen g) := by
  unfold atMostOneOpen
  infer_instance


/-- Equalities between the parts of the state an event handler never
rebuilds: the page dict, the widget-tree order, and the key sets of the
runtime dicts. -/
def FrameOk (g g' : Gallery) : Prop :=
  g'.image_sets = g.image_sets ∧ g'.rows = g.rows ∧
    dkeys g'.buttons = dkeys g.buttons ∧ dkeys g'.outputs = dkeys g.outputs


/-- Concrete gallery used by witnesses: freshly constructed from the
two-page mapping of the specification scenario. -/
def witnessBase : Gallery :=
  refresh { image_sets := [("A", "<img a>"), ("B", "<img b>")],
            buttons := [], outputs := [], rows := [] }


/-- State of `witnessBase` after toggling A open and then B open. -/
def witnessRun : Gallery :=
  { image_sets := [("A", "<img a>"), ("B", "<img b>")],
    buttons := [("A", { value := false, description := "Show A" }),
                ("B", { value := true, description := "Hide B" })],
    outputs := [("A", none), ("B", some "<img b>")],
    rows := ["A", "B"] }


/-- Synced two-page state in which page A is open. -/
def openGallery : Gallery :=
  { image_sets := [("A", "x"), ("B", "y")],
    buttons := [("A", { value := true, description := "Hide A" }),
                ("B", { value := false, description := "Show B" })],
    outputs := [("A", some "x"), ("B", none)],
    rows := ["A", "B"] }


/-- Two-page state in which both pages are closed but A's display region
still holds content. -/
def staleGallery : Gallery :=
  { image_sets := [("A", "x"), ("B", "y")],
    buttons := [("A", { value := false, description := "Show A" }),
                ("B", { value := false, description := "Show B" })],
    outputs := [("A", some "stale"), ("B", none)],
    rows := ["A", "B"] }


/-- Three-page gallery used by the rename-reordering witness. -/
def threeGallery : Gallery :=
  { image_sets := [("A", "x"), ("B", "y"), ("C", "z")],
    buttons := [], outputs := [], rows := [] }


/-- State of `openGallery` after toggling page B open (A forced closed). -/
def witnessOpenB : Gallery :=
  { image_sets := [("A", "x"), ("B", "y")],
    buttons := [("A", { value := false, description := "Show A" }),
                ("B", { value := true, description := "Hide B" })],
    outputs := [("A", none), ("B", some "y")],
    rows := ["A", "B"] }


/-- All-closed two-page state with clean regions. -/
def closedGallery : Gallery :=
  { image_sets := [("A", "x"), ("B", "y")],
    buttons := [("A", { value := false, description := "Show A" }),
                ("B", { value := false, description := "Show B" })],
    outputs := [("A", none), ("B", none)],
    rows := ["A", "B"] }


theorem dfind_cons {α : Type} (a : String) (b : α) (rest : Dict α) (k : String) :
    dfind ((a, b) :: rest) k = if a = k then some b else dfind rest k := rfl


theorem drep_cons {α : Type} (a : String) (b : α) (rest : Dict α) (k : String) (v : α) :
    drep ((a, b) :: rest) k v = (if a = k then (k, v) else (a, b)) :: drep rest k v := by
  simp [drep]


theorem dkeys_cons {α : Type} (a : String) (b : α) (rest : Dict α) :
    dkeys ((a, b) :: rest) = a :: dkeys rest := rfl


theorem dfind_eq_none {α : Type} {d : Dict α} {k : String}
    (h : dcontains d k = false) : dfind d k = none := by
  unfold dcontains at h
  exact Option.not_isSome_iff_eq_none.mp (by simp [h])


theorem dcontains_iff_mem {α : Type} {d : Dict α} {k : String} :
    dcontains d k = true ↔ k ∈ dkeys d := by
  induction d with
  | nil => simp [dcontains, dfind, dkeys]
  | cons p rest ih =>
    obtain ⟨a, b⟩ := p
    by_cases h : a = k
    · subst h
      simp [dcontains, dfind_cons, dkeys_cons]
    · simp only [dcontains] at ih ⊢
      simp [dfind_cons, dkeys_cons, h, Ne.symm h, ih]


theorem mem_dkeys_of_dfind {α : Type} {d : Dict α} {k : String} {v : α}
    (h : dfind d k = some v) : k ∈ dkeys d := by
  apply dcontains_iff_mem.mp
  unfold dcontains
  simp [h]


theorem dkeys_drep {α : Type} (d : Dict α) (k : String) (v : α) :
    dkeys (drep d k v) = dkeys d := by
  induction d with
  | nil => rfl
  | cons p rest ih =>
    obtain ⟨a, b⟩ := p
    by_cases h : a = k
    · simp [drep_cons, dkeys_cons, h, ih]
    · simp [drep_cons, dkeys_cons, h, ih]


theorem dfind_drep_self {α : Type} {d : Dict α} {k : String} (v : α)
    (h : dcontains d k = true) : dfind (drep d k v) k = some v := by
  induction d with
  | nil => simp [dcontains, dfind] at h
  | cons p rest ih =>
    obtain ⟨a, b⟩ := p
    by_cases hk : a = k
    · simp [drep_cons, dfind_cons, hk]
    · have h' : dcontains rest k = true := by
        simpa [dcontains, dfind_cons, hk] using h
      simp [drep_cons, dfind_cons, hk, ih h']


theorem dfind_drep_ne {α : Type} {d : Dict α} {k k' : String} (v : α)
    (h : k' ≠ k) : dfind (drep d k v) k' = dfind d k' := by
  induction d with
  | nil => rfl
  | cons p rest ih =>
    obtain ⟨a, b⟩ := p
    by_cases hk : a = k
    · have hne : ¬ (k = k') := fun hh => h hh.symm
      simp [drep_cons, dfind_cons, hk, hne, ih]
    · simp [drep_cons, dfind_cons, hk, ih]


theorem dfind_append_one_self {α : Type} {d : Dict α} {k : String} (v : α)
    (h : dcontains d k = false) : dfind (d ++ [(k, v)]) k = some v := by
  induction d with
  | nil => simp [dfind]
  | cons p rest ih =>
    obtain ⟨a, b⟩ := p
    by_cases hk : a = k
    · simp [dcontains, dfind_cons, hk] at h
    · have h' : dcontains rest k = false := by
        simpa [dcontains, dfind_cons, hk] using h
      simpa [dfind_cons, hk] using ih h'


theorem dfind_append_one_ne {α : Type} {d : Dict α} {k k' : String} (v : α)
    (h : k' ≠ k) : dfind (d ++ [(k, v)]) k' = dfind d k' := by
  induction d with
  | nil =>
    have hne : ¬ (k = k') := fun hh => h hh.symm
    simp [dfind, dfind_cons, hne]
  | cons p rest ih =>
    obtain ⟨a, b⟩ := p
    by_cases hk : a = k'
    · simp [dfind_cons, hk]
    · simp [dfind_cons, hk, ih]


theorem dfind_dset_self {α : Type} (d : Dict α) (k : String) (v : α) :
    dfind (dset d k v) k = some v := by
  unfold dset
  by_cases h : dcontains d k = true
  · simp only [h, if_true]
    exact dfind_drep_self v h
  · have h' : dcontains d k = false := by simpa using h
    simp only [h', Bool.false_eq_true, if_false]
    exact dfind_append_one_self v h'


theorem dfind_dset_ne {α : Type} (d : Dict α) {k k' : String} (v : α)
    (h : k' ≠ k) : dfind (dset d k v) k' = dfind d k' := by
  unfold dset
  by_cases hc : dcontains d k = true
  · simp only [hc, if_true]
    exact dfind_drep_ne v h
  · simp only [hc, Bool.false_eq_true, if_false]
    exact dfind_append_one_ne v h


theorem dkeys_dset_of_contains {α : Type} {d : Dict α} {k : String} (v : α)
    (h : dcontains d k = true) : dkeys (dset d k v) = dkeys d := by
  unfold dset
  simp only [h, if_true]
  exact dkeys_drep d k v


theorem dkeys_dset_of_not_contains {α : Type} {d : Dict α} {k : String} (v : α)
    (h : dcontains d k = false) : dkeys (dset d k v) = dkeys d ++ [k] := by
  unfold dset
  simp [h, dkeys]


theorem drep_eq_self_of_not_mem {α : Type} {d : Dict α} {k : String} (v : α)
    (h : k ∉ dkeys d) : drep d k v = d := by
  induction d with
  | nil => rfl
  | cons p rest ih =>
    obtain ⟨a, b⟩ := p
    rw [dkeys_cons] at h
    have ha : a ≠ k := fun hh => h (hh ▸ List.mem_cons_self a (dkeys rest))
    have hr : k ∉ dkeys rest := fun hh => h (List.mem_cons_of_mem a hh)
    simp [drep_cons, ha, ih hr]


theorem dset_eq_self {α : Type} {d : Dict α} {k : String} {v : α}
    (hnd : (dkeys d).Nodup) (h : dfind d k = some v) : dset d k v = d := by
  have hc : dcontains d k = true := by unfold dcontains; simp [h]
  unfold dset
  simp only [hc, if_true]
  clear hc
  induction d with
  | nil => simp [dfind] at h
  | cons p rest ih =>
    obtain ⟨a, b⟩ := p
    rw [dkeys_cons] at hnd
    have hnd1 : a ∉ dkeys rest := (List.nodup_cons.mp hnd).1
    have hnd2 : (dkeys rest).Nodup := (List.nodup_cons.mp hnd).2
    by_cases hk : a = k
    · have hv : b = v := by
        have := h
        rw [dfind_cons, if_pos hk] at this
        exact Option.some.inj this
      rw [drep_cons, if_pos hk, ← hk, ← hv]
      rw [drep_eq_self_of_not_mem b hnd1]
    · have h' : dfind rest k = some v := by
        have := h
        rwa [dfind_cons, if_neg hk] at this
      rw [drep_cons, if_neg hk]
      rw [ih hnd2 h']


theorem dkeys_dpop {α : Type} (d : Dict α) (k : String) :
    dkeys (dpop d k) = (dkeys d).filter (fun x => x ≠ k) := by
  induction d with
  | nil => rfl
  | cons p rest ih =>
    obtain ⟨a, b⟩ := p
    by_cases hk : a = k
    · simp [dpop, dkeys_cons, List.filter, hk] at ih ⊢
      simpa [dpop, dkeys] using ih
    · simp [dpop, dkeys_cons, List.filter, hk] at ih ⊢
      simpa [dpop, dkeys] using ih


theorem dpop_eq_self {α : Type} {d : Dict α} {k : String}
    (h : dcontains d k = false) : dpop d k = d := by
  induction d with
  | nil => rfl
  | cons p rest ih =>
    obtain ⟨a, b⟩ := p
    by_cases hk : a = k
    · simp [dcontains, dfind_cons, hk] at h
    · have h' : dcontains rest k = false := by
        simpa [dcontains, dfind_cons, hk] using h
      simp [dpop, List.filter, hk] at ih ⊢
      simpa [dpop] using ih h'


theorem dfind_of_mem_nodup {α : Type} {d : Dict α} {p : String × α}
    (hnd : (dkeys d).Nodup) (hp : p ∈ d) : dfind d p.1 = some p.2 := by
  induction d with
  | nil => simp at hp
  | cons q rest ih =>
    obtain ⟨a, b⟩ := q
    rw [dkeys_cons] at hnd
    have hnd1 : a ∉ dkeys rest := (List.nodup_cons.mp hnd).1
    have hnd2 : (dkeys rest).Nodup := (List.nodup_cons.mp hnd).2
    rcases List.mem_cons.mp hp with h | h
    · subst h
      simp [dfind_cons]
    · have hne : a ≠ p.1 := by
        intro he
        exact hnd1 (he ▸ (List.mem_map.mpr ⟨p, h, rfl⟩))
      rw [dfind_cons, if_neg hne]
      exact ih hnd2 h


theorem countOpen_drep_le {b : ToggleButton} (hb : b.value = false)
    (d : Dict ToggleButton) (k : String) :
    ((drep d k b).filter (fun p => p.2.value)).length ≤
      (d.filter (fun p => p.2.value)).length := by
  induction d with
  | nil => simp [drep]
  | cons p rest ih =>
    obtain ⟨a, c⟩ := p
    rw [drep_cons]
    by_cases hak : a = k
    · rw [if_pos hak]
      by_cases hcv : c.value = true
      · simp [List.filter_cons, hb, hcv]
        exact Nat.le_succ_of_le ih
      · simp only [Bool.not_eq_true] at hcv
        simp [List.filter_cons, hb, hcv]
        exact ih
    · rw [if_neg hak]
      by_cases hcv : c.value = true
      · simp [List.filter_cons, hcv]
        exact ih
      · simp only [Bool.not_eq_true] at hcv
        simp [List.filter_cons, hcv]
        exact ih


theorem countOpen_dset_le {b : ToggleButton} (hb : b.value = false)
    (d : Dict ToggleButton) (k : String) :
    ((dset d k b).filter (fun p => p.2.value)).length ≤
      (d.filter (fun p => p.2.value)).length := by
  unfold dset
  by_cases hc : dcontains d k = true
  · simp only [hc, if_true]
    exact countOpen_drep_le hb d k
  · simp only [hc, Bool.false_eq_true, if_false]
    simp [List.filter_append, hb]


theorem length_le_one_of_nodup_all_eq {l : List String} {n : String}
    (hnd : l.Nodup) (h : ∀ x ∈ l, x = n) : l.length ≤ 1 := by
  cases l with
  | nil => simp
  | cons x xs =>
    cases xs with
    | nil => simp
    | cons y rest =>
      exfalso
      have hx : x = n := h x (by simp)
      have hy : y = n := h y (by simp)
      have hxy : x ∉ y :: rest := (List.nodup_cons.mp hnd).1
      exact hxy (by simp [hx, hy])


theorem countOpen_le_one_of_unique {d : Dict ToggleButton} {n : String}
    (hnd : (dkeys d).Nodup)
    (h : ∀ p ∈ d, p.2.value = true → p.1 = n) :
    (d.filter (fun p => p.2.value)).length ≤ 1 := by
  have hsub : List.Sublist (dkeys (d.filter (fun p => p.2.value))) (dkeys d) :=
    List.Sublist.map Prod.fst (List.filter_sublist d)
  have hnd' : (dkeys (d.filter (fun p => p.2.value))).Nodup :=
    List.Nodup.sublist hsub hnd
  have hall : ∀ x ∈ dkeys (d.filter (fun p => p.2.value)), x = n := by
    intro x hx
    rcases List.mem_map.mp hx with ⟨p, hp, hpx⟩
    have hpd : p ∈ d := (List.mem_filter.mp hp).1
    have hpv : p.2.value = true := by simpa using (List.mem_filter.mp hp).2
    exact hpx ▸ h p hpd hpv
  have hlen : (dkeys (d.filter (fun p => p.2.value))).length =
      (d.filter (fun p => p.2.value)).length := List.length_map _ _
  rw [← hlen]
  exact length_le_one_of_nodup_all_eq hnd' hall


theorem dcontains_of_dfind {α : Type} {d : Dict α} {k : String} {v : α}
    (h : dfind d k = some v) : dcontains d k = true := by
  unfold dcontains
  simp [h]


theorem FrameOk.refl (g : Gallery) : FrameOk g g :=
  ⟨rfl, rfl, rfl, rfl⟩


theorem FrameOk.trans {g1 g2 g3 : Gallery} (h1 : FrameOk g1 g2) (h2 : FrameOk g2 g3) :
    FrameOk g1 g3 :=
  ⟨h2.1.trans h1.1, h2.2.1.trans h1.2.1, h2.2.2.1.trans h1.2.2.1, h2.2.2.2.trans h1.2.2.2⟩


theorem hide_html_some {g : Gallery} {name : String} {v : Option String}
    (h : dfind g.outputs name = some v) :
    hide_html g name = some { g with outputs := dset g.outputs name none } := by
  simp [hide_html, h]


theorem setDescription_some {g : Gallery} {name : String} (desc : String) {b : ToggleButton}
    (hb : dfind g.buttons name = some b) :
    setDescription g name desc =
      some { g with buttons := dset g.buttons name { b with description := desc } } := by
  simp [setDescription, hb]


theorem on_toggle_false_some {g : Gallery} {name : String} {v : Option String} {b : ToggleButton}
    (ho : dfind g.outputs name = some v) (hb : dfind g.buttons name = some b) :
    on_toggle_false g name =
      some { g with outputs := dset g.outputs name none,
                    buttons := dset g.buttons name { b with description := "Show " ++ name } } := by
  unfold on_toggle_false
  rw [hide_html_some ho]
  have hb1 : dfind ({ g with outputs := dset g.outputs name none } : Gallery).buttons name = some b := hb
  simp only
  rw [setDescription_some _ hb1]


theorem clear_and_close_spec {g : Gallery} {other : String} {b : ToggleButton} {v : Option String}
    (hb : dfind g.buttons other = some b) (ho : dfind g.outputs other = some v) :
    ∃ g', clear_and_close g other = some g' ∧ FrameOk g g' ∧
      (∀ k, k ≠ other → dfind g'.buttons k = dfind g.buttons k) ∧
      (∀ k, k ≠ other → dfind g'.outputs k = dfind g.outputs k) ∧
      dfind g'.outputs other = some none ∧
      dfind g'.buttons other =
        some (if b.value then { value := false, description := "Show " ++ other } else b) ∧
      (g'.buttons.filter (fun p => p.2.value)).length ≤
        (g.buttons.filter (fun p => p.2.value)).length := by
  unfold clear_and_close
  rw [ho]
  simp only
  have hb1 : dfind ({ g with outputs := dset g.outputs other none } : Gallery).buttons other = some b := hb
  rw [hb1]
  simp only
  by_cases hbv : b.value = true
  · simp only [hbv, if_true]
    have ho2 : dfind ({ g with outputs := dset g.outputs other none, buttons := dset g.buttons other { b with value := false } } : Gallery).outputs other = some none := dfind_dset_self _ _ _
    have hb2 : dfind ({ g with outputs := dset g.outputs other none, buttons := dset g.buttons other { b with value := false } } : Gallery).buttons other = some { b with value := false } := dfind_dset_self _ _ _
    rw [on_toggle_false_some ho2 hb2]
    have hc1 : dcontains (dset g.buttons other { b with value := false }) other = true :=
      dcontains_of_dfind (dfind_dset_self _ _ _)
    have hc2 : dcontains (dset g.outputs other none) other = true :=
      dcontains_of_dfind (dfind_dset_self _ _ _)
    refine ⟨_, rfl, ?_, ?_, ?_, ?_, ?_, ?_⟩
    · refine ⟨rfl, rfl, ?_, ?_⟩
      · exact (dkeys_dset_of_contains _ hc1).trans (dkeys_dset_of_contains _ (dcontains_of_dfind hb))
      · exact (dkeys_dset_of_contains _ hc2).trans (dkeys_dset_of_contains _ (dcontains_of_dfind ho))
    · intro k hk
      exact (dfind_dset_ne _ _ hk).trans (dfind_dset_ne _ _ hk)
    · intro k hk
      exact (dfind_dset_ne _ _ hk).trans (dfind_dset_ne _ _ hk)
    · exact dfind_dset_self _ _ _
    · exact dfind_dset_self _ _ _
    · exact Nat.le_trans (countOpen_dset_le rfl _ _) (countOpen_dset_le rfl _ _)
  · simp only [hbv, Bool.false_eq_true, if_false]
    refine ⟨_, rfl, ?_, ?_, ?_, ?_, ?_, ?_⟩
    · exact ⟨rfl, rfl, rfl, dkeys_dset_of_contains _ (dcontains_of_dfind ho)⟩
    · exact fun k hk => rfl
    · exact fun k hk => dfind_dset_ne _ _ hk
    · exact dfind_dset_self _ _ _
    · exact hb
    · exact Nat.le_refl _


theorem closeOthers_spec (name : String) :
    ∀ (l : List String) (g : Gallery),
    (∀ k ∈ l, k ≠ name → (∃ b, dfind g.buttons k = some b) ∧ (∃ v, dfind g.outputs k = some v)) →
    ∃ g', closeOthers name g l = some g' ∧ FrameOk g g' ∧
      dfind g'.buttons name = dfind g.buttons name ∧
      dfind g'.outputs name = dfind g.outputs name ∧
      (∀ k, k ∉ l → dfind g'.buttons k = dfind g.buttons k ∧
        dfind g'.outputs k = dfind g.outputs k) ∧
      (∀ k, k ∈ l → k ≠ name → dfind g'.outputs k = some none ∧
        (∀ b, dfind g.buttons k = some b → dfind g'.buttons k =
          some (if b.value then { value := false, description := "Show " ++ k } else b))) ∧
      (g'.buttons.filter (fun p => p.2.value)).length ≤
        (g.buttons.filter (fun p => p.2.value)).length := by
  intro l
  induction l with
  | nil =>
    intro g _
    exact ⟨g, rfl, FrameOk.refl g, rfl, rfl, fun k _ => ⟨rfl, rfl⟩,
      fun k hk => absurd hk (List.not_mem_nil k), Nat.le_refl _⟩
  | cons other rest ih =>
    intro g H
    by_cases hon : other = name
    · subst hon
      have H' : ∀ k ∈ rest, k ≠ other →
          (∃ b, dfind g.buttons k = some b) ∧ (∃ v, dfind g.outputs k = some v) :=
        fun k hk => H k (List.mem_cons_of_mem other hk)
      obtain ⟨g', hrun, hframe, hbn, hon', hnotin, hin, hcount⟩ := ih g H'
      refine ⟨g', ?_, hframe, hbn, hon', ?_, ?_, hcount⟩
      · unfold closeOthers
        rw [if_pos rfl]
        exact hrun
      · intro k hk
        exact hnotin k (fun hr => hk (List.mem_cons_of_mem other hr))
      · intro k hk hkname
        rcases List.mem_cons.mp hk with h | h
        · exact absurd h.symm (Ne.symm hkname)
        · exact hin k h hkname
    · have hother := H other (List.mem_cons_self other rest) hon
      obtain ⟨⟨b, hb⟩, ⟨v, ho⟩⟩ := hother
      obtain ⟨g1, hstep, hframe1, hbne1, hone1, hoout1, hobut1, hcount1⟩ :=
        clear_and_close_spec hb ho
      have H1 : ∀ k ∈ rest, k ≠ name →
          (∃ b, dfind g1.buttons k = some b) ∧ (∃ v, dfind g1.outputs k = some v) := by
        intro k hk hkname
        by_cases hko : k = other
        · subst hko
          exact ⟨⟨_, hobut1⟩, ⟨_, hoout1⟩⟩
        · obtain ⟨⟨bk, hbk⟩, ⟨vk, hvk⟩⟩ := H k (List.mem_cons_of_mem other hk) hkname
          exact ⟨⟨bk, (hbne1 k hko).trans hbk⟩, ⟨vk, (hone1 k hko).trans hvk⟩⟩
      obtain ⟨g', hrun, hframe2, hbn2, hon2, hnotin2, hin2, hcount2⟩ := ih g1 H1
      have hnameo : name ≠ other := fun h => hon h.symm
      have hb1val : (if b.value then
          ({ value := false, description := "Show " ++ other } : ToggleButton) else b).value
          = false := by
        by_cases hbv : b.value = true
        · simp [hbv]
        · simp only [Bool.not_eq_true] at hbv
          simp [hbv]
      refine ⟨g', ?_, FrameOk.trans hframe1 hframe2, ?_, ?_, ?_, ?_, Nat.le_trans hcount2 hcount1⟩
      · unfold closeOthers
        rw [if_neg hon, hstep]
        exact hrun
      · exact hbn2.trans (hbne1 name hnameo)
      · exact hon2.trans (hone1 name hnameo)
      · intro k hk
        have hko : k ≠ other := fun h => hk (h ▸ List.mem_cons_self other rest)
        have hkr : k ∉ rest := fun h => hk (List.mem_cons_of_mem other h)
        exact ⟨(hnotin2 k hkr).1.trans (hbne1 k hko), (hnotin2 k hkr).2.trans (hone1 k hko)⟩
      · intro k hk hkname
        by_cases hko : k = other
        · subst hko
          by_cases hkr : k ∈ rest
          · refine ⟨(hin2 k hkr hkname).1, ?_⟩
            intro b0 hb0
            have hbb : b0 = b := Option.some.inj (hb0.symm.trans hb)
            subst hbb
            have := (hin2 k hkr hkname).2 _ hobut1
            rw [this]
            simp [hb1val]
          · refine ⟨(hnotin2 k hkr).2.trans hoout1, ?_⟩
            intro b0 hb0
            have hbb : b0 = b := Option.some.inj (hb0.symm.trans hb)
            subst hbb
            exact (hnotin2 k hkr).1.trans hobut1
        · have hkr : k ∈ rest := by
            rcases List.mem_cons.mp hk with h | h
            · exact absurd h hko
            · exact h
          refine ⟨(hin2 k hkr hkname).1, ?_⟩
          intro b0 hb0
          exact (hin2 k hkr hkname).2 b0 ((hbne1 k hko).trans hb0)


theorem dfind_isSome {α : Type} {d : Dict α} {k : String}
    (h : dcontains d k = true) : ∃ v, dfind d k = some v := by
  unfold dcontains at h
  exact Option.isSome_iff_exists.mp h


theorem show_html_spec {g : Gallery} {name : String} {v : Option String} {html : String}
    (ho : dfind g.outputs name = some v) (hi : dfind g.image_sets name = some html)
    (H : ∀ k ∈ dkeys g.image_sets, k ≠ name →
      (∃ b, dfind g.buttons k = some b) ∧ (∃ w, dfind g.outputs k = some w)) :
    ∃ g', show_html g name = some g' ∧
      g'.image_sets = g.image_sets ∧ g'.rows = g.rows ∧
      dkeys g'.buttons = dkeys g.buttons ∧ dkeys g'.outputs = dkeys g.outputs ∧
      dfind g'.buttons name = dfind g.buttons name ∧
      dfind g'.outputs name = some (some html) ∧
      (∀ k, k ∉ dkeys g.image_sets → k ≠ name → dfind g'.buttons k = dfind g.buttons k ∧
        dfind g'.outputs k = dfind g.outputs k) ∧
      (∀ k, k ∈ dkeys g.image_sets → k ≠ name → dfind g'.outputs k = some none ∧
        (∀ b, dfind g.buttons k = some b → dfind g'.buttons k =
          some (if b.value then { value := false, description := "Show " ++ k } else b))) ∧
      (g'.buttons.filter (fun p => p.2.value)).length ≤
        (g.buttons.filter (fun p => p.2.value)).length := by
  have H1 : ∀ k ∈ dkeys ({ g with outputs := dset g.outputs name (some html) } : Gallery).image_sets,
      k ≠ name → (∃ b, dfind ({ g with outputs := dset g.outputs name (some html) } : Gallery).buttons k = some b) ∧
        (∃ w, dfind ({ g with outputs := dset g.outputs name (some html) } : Gallery).outputs k = some w) := by
    intro k hk hkname
    obtain ⟨⟨bk, hbk⟩, ⟨wk, hwk⟩⟩ := H k hk hkname
    exact ⟨⟨bk, hbk⟩, ⟨wk, (dfind_dset_ne _ _ hkname).trans hwk⟩⟩
  obtain ⟨g', hrun, hframe, hbn, hon, hnotin, hin, hcount⟩ :=
    closeOthers_spec name (dkeys g.image_sets)
      ({ g with outputs := dset g.outputs name (some html) } : Gallery) H1
  refine ⟨g', ?_, hframe.1, hframe.2.1, hframe.2.2.1, ?_, hbn, ?_, ?_, ?_, hcount⟩
  · unfold show_html
    rw [ho]
    simp only
    rw [hi]
    simp only
    exact hrun
  · exact hframe.2.2.2.trans (dkeys_dset_of_contains _ (dcontains_of_dfind ho))
  · exact hon.trans (dfind_dset_self _ _ _)
  · intro k hk hkname
    obtain ⟨h1, h2⟩ := hnotin k hk
    exact ⟨h1, h2.trans (dfind_dset_ne _ _ hkname)⟩
  · intro k hk hkname
    obtain ⟨h1, h2⟩ := hin k hk hkname
    exact ⟨h1, h2⟩


theorem toggle_close_spec {g : Gallery} {name : String} {b : ToggleButton} {v : Option String}
    (hb : dfind g.buttons name = some b) (hbv : b.value = true)
    (ho : dfind g.outputs name = some v) :
    ∃ g', toggle_event g name = some g' ∧
      g'.image_sets = g.image_sets ∧ g'.rows = g.rows ∧
      dkeys g'.buttons = dkeys g.buttons ∧ dkeys g'.outputs = dkeys g.outputs ∧
      dfind g'.buttons name = some { value := false, description := "Show " ++ name } ∧
      dfind g'.outputs name = some none ∧
      (∀ k, k ≠ name → dfind g'.buttons k = dfind g.buttons k ∧
        dfind g'.outputs k = dfind g.outputs k) ∧
      (g'.buttons.filter (fun p => p.2.value)).length ≤
        (g.buttons.filter (fun p => p.2.value)).length := by
  unfold toggle_event
  rw [hb]
  simp only [hbv, Bool.not_true]
  unfold on_toggle
  simp only [Bool.false_eq_true, if_false]
  have ho1 : dfind ({ g with buttons := dset g.buttons name { b with value := false } } : Gallery).outputs name = some v := ho
  have hb1 : dfind ({ g with buttons := dset g.buttons name { b with value := false } } : Gallery).buttons name = some { b with value := false } := dfind_dset_self _ _ _
  rw [on_toggle_false_some ho1 hb1]
  have hcb : dcontains (dset g.buttons name { b with value := false }) name = true :=
    dcontains_of_dfind (dfind_dset_self _ _ _)
  refine ⟨_, rfl, rfl, rfl, ?_, ?_, ?_, ?_, ?_, ?_⟩
  · exact (dkeys_dset_of_contains _ hcb).trans (dkeys_dset_of_contains _ (dcontains_of_dfind hb))
  · exact dkeys_dset_of_contains _ (dcontains_of_dfind ho)
  · exact dfind_dset_self _ _ _
  · exact dfind_dset_self _ _ _
  · intro k hk
    exact ⟨(dfind_dset_ne _ _ hk).trans (dfind_dset_ne _ _ hk), dfind_dset_ne _ _ hk⟩
  · exact Nat.le_trans (countOpen_dset_le rfl _ _) (countOpen_dset_le rfl _ _)


theorem toggle_open_spec {g : Gallery} {name : String} {b : ToggleButton}
    (hs : Synced g) (hb : dfind g.buttons name = some b) (hbv : b.value = false) :
    ∃ g' html, toggle_event g name = some g' ∧ Synced g' ∧
      g'.image_sets = g.image_sets ∧ g'.rows = g.rows ∧
      dfind g.image_sets name = some html ∧
      dfind g'.buttons name = some { value := true, description := "Hide " ++ name } ∧
      dfind g'.outputs name = some (some html) ∧
      (∀ k bk, k ≠ name → dfind g.buttons k = some bk → dfind g'.buttons k =
        some (if bk.value then { value := false, description := "Show " ++ k } else bk)) ∧
      (∀ k, k ≠ name → dfind g.buttons k = none → dfind g'.buttons k = none) ∧
      (∀ k w, k ≠ name → dfind g.outputs k = some w → dfind g'.outputs k = some none) ∧
      (∀ k, k ≠ name → dfind g.outputs k = none → dfind g'.outputs k = none) ∧
      atMostOneOpen g' := by
  obtain ⟨hkb, hko, hnd⟩ := hs
  have hnameI : name ∈ dkeys g.image_sets := hkb ▸ mem_dkeys_of_dfind hb
  obtain ⟨html, hi⟩ := dfind_isSome (dcontains_iff_mem.mpr hnameI)
  have hnameO : name ∈ dkeys g.outputs := hko.symm ▸ hnameI
  obtain ⟨v, ho⟩ := dfind_isSome (dcontains_iff_mem.mpr hnameO)
  have e1 : toggle_event g name = on_toggle ({ g with buttons := dset g.buttons name { value := true, description := b.description } } : Gallery) name true := by
    unfold toggle_event
    rw [hb]
    simp only [hbv, Bool.not_false]
  have ho1 : dfind ({ g with buttons := dset g.buttons name { value := true, description := b.description } } : Gallery).outputs name = some v := ho
  have hi1 : dfind ({ g with buttons := dset g.buttons name { value := true, description := b.description } } : Gallery).image_sets name = some html := hi
  have H1 : ∀ k ∈ dkeys ({ g with buttons := dset g.buttons name { value := true, description := b.description } } : Gallery).image_sets, k ≠ name → (∃ bk, dfind ({ g with buttons := dset g.buttons name { value := true, description := b.description } } : Gallery).buttons k = some bk) ∧ (∃ w, dfind ({ g with buttons := dset g.buttons name { value := true, description := b.description } } : Gallery).outputs k = some w) := by
    intro k hk hkname
    have hkI : k ∈ dkeys g.image_sets := hk
    obtain ⟨bk, hbk⟩ := dfind_isSome (dcontains_iff_mem.mpr (hkb.symm ▸ hkI))
    obtain ⟨wk, hwk⟩ := dfind_isSome (dcontains_iff_mem.mpr (hko.symm ▸ hkI))
    exact ⟨⟨bk, (dfind_dset_ne _ _ hkname).trans hbk⟩, ⟨wk, hwk⟩⟩
  obtain ⟨g2, hrun2, him2, hrows2, hkb2, hko2, hbn2, hout2, hnotin2, hin2, hcount2⟩ :=
    show_html_spec ho1 hi1 H1
  have hb2 : dfind g2.buttons name = some { value := true, description := b.description } :=
    hbn2.trans (dfind_dset_self _ _ _)
  have e2 : on_toggle ({ g with buttons := dset g.buttons name { value := true, description := b.description } } : Gallery) name true = setDescription g2 name ("Hide " ++ name) := by
    unfold on_toggle
    rw [if_pos rfl, hrun2]
  have e3 := setDescription_some ("Hide " ++ name) hb2
  have hkbG : dkeys (dset g2.buttons name { value := true, description := "Hide " ++ name }) = dkeys g.buttons := by
    refine (dkeys_dset_of_contains _ (dcontains_of_dfind hb2)).trans ?_
    exact hkb2.trans (dkeys_dset_of_contains _ (dcontains_of_dfind hb))
  have himG : g2.image_sets = g.image_sets := him2
  have hndG : (dkeys (dset g2.buttons name { value := true, description := "Hide " ++ name })).Nodup := by
    rw [hkbG, hkb]
    exact hnd
  have hclosed : ∀ k bk, k ≠ name → dfind g.buttons k = some bk →
      dfind (dset g2.buttons name { value := true, description := "Hide " ++ name }) k =
        some (if bk.value then { value := false, description := "Show " ++ k } else bk) := by
    intro k bk hkname hbk
    have hkI : k ∈ dkeys g.image_sets := hkb ▸ mem_dkeys_of_dfind hbk
    have step := (hin2 k hkI hkname).2 bk ((dfind_dset_ne _ _ hkname).trans hbk)
    exact (dfind_dset_ne _ _ hkname).trans step
  have hnone : ∀ k, k ≠ name → dfind g.buttons k = none →
      dfind (dset g2.buttons name { value := true, description := "Hide " ++ name }) k = none := by
    intro k hkname hkn
    have hknI : k ∉ dkeys g.image_sets := by
      intro hmem
      obtain ⟨bk, hbk⟩ := dfind_isSome (dcontains_iff_mem.mpr (hkb.symm ▸ hmem))
      rw [hkn] at hbk
      exact Option.noConfusion hbk
    have step := (hnotin2 k hknI hkname).1
    refine (dfind_dset_ne _ _ hkname).trans (step.trans ?_)
    exact (dfind_dset_ne _ _ hkname).trans hkn
  refine ⟨_, html, e1.trans (e2.trans e3), ?_, himG, hrows2, hi, ?_, hout2, hclosed, hnone,
    ?_, ?_, ?_⟩
  · refine ⟨?_, ?_, ?_⟩
    · show dkeys (dset g2.buttons name { value := true, description := "Hide " ++ name }) = dkeys g2.image_sets
      rw [hkbG, hkb, himG]
    · show dkeys g2.outputs = dkeys g2.image_sets
      rw [himG]
      refine hko2.trans ?_
      exact hko
    · show (dkeys g2.image_sets).Nodup
      rw [himG]
      exact hnd
  · exact dfind_dset_self _ _ _
  · intro k w hkname hw
    have hkI : k ∈ dkeys g.image_sets := hko ▸ mem_dkeys_of_dfind hw
    exact (hin2 k hkI hkname).1
  · intro k hkname hkn
    have hknI : k ∉ dkeys g.image_sets := by
      intro hmem
      obtain ⟨wk, hwk⟩ := dfind_isSome (dcontains_iff_mem.mpr (hko.symm ▸ hmem))
      rw [hkn] at hwk
      exact Option.noConfusion hwk
    exact ((hnotin2 k hknI hkname).2).trans hkn
  · show (List.filter (fun p => p.2.value) (dset g2.buttons name { value := true, description := "Hide " ++ name })).length ≤ 1
    refine @countOpen_le_one_of_unique _ name hndG ?_
    intro p hp hpv
    by_contra hne
    have hfp := dfind_of_mem_nodup hndG hp
    cases hgb : dfind g.buttons p.1 with
    | none =>
      rw [hnone p.1 hne hgb] at hfp
      exact Option.noConfusion hfp
    | some bk =>
      rw [hclosed p.1 bk hne hgb] at hfp
      have hval : p.2 = if bk.value then
          ({ value := false, description := "Show " ++ p.1 } : ToggleButton) else bk :=
        Option.some.inj hfp.symm
      by_cases hbkv : bk.value = true
      · rw [hval] at hpv
        simp [hbkv] at hpv
      · simp only [Bool.not_eq_true] at hbkv
        rw [hval] at hpv
        simp [hbkv] at hpv


theorem toggle_preserves {g g1 : Gallery} {name : String}
    (hs : Synced g) (h1 : atMostOneOpen g) (ht : toggle_event g name = some g1) :
    Synced g1 ∧ atMostOneOpen g1 := by
  cases hfb : dfind g.buttons name with
  | none =>
    unfold toggle_event at ht
    rw [hfb] at ht
    simp at ht
  | some b =>
    by_cases hbv : b.value = true
    · obtain ⟨hkb, hko, hnd⟩ := hs
      have hnameO : name ∈ dkeys g.outputs := hko.symm ▸ (hkb ▸ mem_dkeys_of_dfind hfb)
      obtain ⟨v, ho⟩ := dfind_isSome (dcontains_iff_mem.mpr hnameO)
      obtain ⟨g', ht', him, hrows, hkb', hko', _, _, _, hcount⟩ := toggle_close_spec hfb hbv ho
      have hgg : g' = g1 := Option.some.inj (ht'.symm.trans ht)
      subst hgg
      refine ⟨⟨?_, ?_, ?_⟩, ?_⟩
      · rw [hkb', hkb, him]
      · rw [hko', hko, him]
      · rw [him]
        exact hnd
      · exact Nat.le_trans hcount h1
    · simp only [Bool.not_eq_true] at hbv
      obtain ⟨g', html, ht', hs', _, _, _, _, _, _, _, _, _, hatm⟩ :=
        toggle_open_spec ⟨hs.1, hs.2.1, hs.2.2⟩ hfb hbv
      have hgg : g' = g1 := Option.some.inj (ht'.symm.trans ht)
      subst hgg
      exact ⟨hs', hatm⟩


theorem runToggles_preserves : ∀ (names : List String) {g g' : Gallery},
    Synced g → atMostOneOpen g → runToggles g names = some g' →
    Synced g' ∧ atMostOneOpen g' := by
  intro names
  induction names with
  | nil =>
    intro g g' hs h1 hr
    unfold runToggles at hr
    cases Option.some.inj hr
    exact ⟨hs, h1⟩
  | cons n rest ih =>
    intro g g' hs h1 hr
    unfold runToggles at hr
    cases ht : toggle_event g n with
    | none =>
      rw [ht] at hr
      simp at hr
    | some g1 =>
      rw [ht] at hr
      simp only at hr
      obtain ⟨hs1, h11⟩ := toggle_preserves hs h1 ht
      exact ih hs1 h11 hr


theorem dkeys_refresh_buttons (g : Gallery) :
    dkeys (refresh g).buttons = dkeys g.image_sets := by
  unfold refresh dkeys
  simp [List.map_map]


theorem dkeys_refresh_outputs (g : Gallery) :
    dkeys (refresh g).outputs = dkeys g.image_sets := by
  unfold refresh dkeys
  simp [List.map_map]


theorem refresh_synced (g : Gallery) (hnd : (dkeys g.image_sets).Nodup) :
    Synced (refresh g) :=
  ⟨dkeys_refresh_buttons g, dkeys_refresh_outputs g, hnd⟩


theorem refresh_openCount (g : Gallery) : openCount (refresh g) = 0 := by
  unfold openCount refresh
  simp only
  induction g.image_sets with
  | nil => rfl
  | cons p rest ih =>
    simpa [List.filter_cons] using ih


theorem gallery_eq_of (g : Gallery) (X : Dict ToggleButton) (Y : Dict (Option String))
    (hX : X = g.buttons) (hY : Y = g.outputs) :
    ({ g with buttons := X, outputs := Y } : Gallery) = g := by
  rw [hX, hY]


theorem closeAllStep_spec {g : Gallery} {n : String} {b : ToggleButton} {v : Option String}
    (hb : dfind g.buttons n = some b) (ho : dfind g.outputs n = some v) :
    ∃ g1, closeAllStep g n = some g1 ∧ FrameOk g g1 ∧
      (∀ k, k ≠ n → dfind g1.buttons k = dfind g.buttons k ∧
        dfind g1.outputs k = dfind g.outputs k) ∧
      dfind g1.buttons n = some { value := false, description := "Show " ++ n } ∧
      dfind g1.outputs n = some none := by
  unfold closeAllStep
  rw [hb]
  simp only
  by_cases hbv : b.value = true
  · simp only [hbv, if_true]
    have ho1 : dfind ({ g with buttons := dset g.buttons n { b with value := false } } : Gallery).outputs n = some v := ho
    have hb1 : dfind ({ g with buttons := dset g.buttons n { b with value := false } } : Gallery).buttons n = some { b with value := false } := dfind_dset_self _ _ _
    rw [on_toggle_false_some ho1 hb1]
    simp only
    have hb2 : dfind (dset (dset g.buttons n { b with value := false }) n { value := false, description := "Show " ++ n }) n = some ({ value := false, description := "Show " ++ n } : ToggleButton) := dfind_dset_self _ _ _
    rw [setDescription_some ("Show " ++ n) hb2]
    have hcb1 : dcontains (dset g.buttons n { b with value := false }) n = true :=
      dcontains_of_dfind (dfind_dset_self _ _ _)
    have hcb2 : dcontains (dset (dset g.buttons n { b with value := false }) n ({ value := false, description := "Show " ++ n } : ToggleButton)) n = true :=
      dcontains_of_dfind (dfind_dset_self _ _ _)
    refine ⟨_, rfl, ⟨rfl, rfl, ?_, ?_⟩, ?_, ?_, ?_⟩
    · exact ((dkeys_dset_of_contains _ hcb2).trans (dkeys_dset_of_contains _ hcb1)).trans
        (dkeys_dset_of_contains _ (dcontains_of_dfind hb))
    · exact dkeys_dset_of_contains _ (dcontains_of_dfind ho)
    · intro k hk
      exact ⟨((dfind_dset_ne _ _ hk).trans (dfind_dset_ne _ _ hk)).trans (dfind_dset_ne _ _ hk),
        dfind_dset_ne _ _ hk⟩
    · exact dfind_dset_self _ _ _
    · exact dfind_dset_self _ _ _
  · simp only [Bool.not_eq_true] at hbv
    simp only [hbv, Bool.false_eq_true, if_false]
    rw [hide_html_some ho]
    simp only
    have hb1 : dfind ({ g with outputs := dset g.outputs n none } : Gallery).buttons n = some b := hb
    rw [setDescription_some ("Show " ++ n) hb1]
    have hrec : ({ b with description := "Show " ++ n } : ToggleButton) =
        { value := false, description := "Show " ++ n } := by
      rw [hbv]
    refine ⟨_, rfl, ⟨rfl, rfl, ?_, ?_⟩, ?_, ?_, ?_⟩
    · exact dkeys_dset_of_contains _ (dcontains_of_dfind hb)
    · exact dkeys_dset_of_contains _ (dcontains_of_dfind ho)
    · intro k hk
      exact ⟨dfind_dset_ne _ _ hk, dfind_dset_ne _ _ hk⟩
    · exact (dfind_dset_self _ _ _).trans (by rw [hrec])
    · exact dfind_dset_self _ _ _


theorem close_all_go_spec : ∀ (l : List String) (g : Gallery),
    (∀ k ∈ l, (∃ b, dfind g.buttons k = some b) ∧ (∃ v, dfind g.outputs k = some v)) →
    ∃ g', close_all_go g l = some g' ∧ FrameOk g g' ∧
      (∀ k, k ∉ l → dfind g'.buttons k = dfind g.buttons k ∧
        dfind g'.outputs k = dfind g.outputs k) ∧
      (∀ k, k ∈ l → dfind g'.buttons k = some { value := false, description := "Show " ++ k } ∧
        dfind g'.outputs k = some none) := by
  intro l
  induction l with
  | nil =>
    intro g _
    exact ⟨g, rfl, FrameOk.refl g, fun k _ => ⟨rfl, rfl⟩,
      fun k hk => absurd hk (List.not_mem_nil k)⟩
  | cons n rest ih =>
    intro g H
    obtain ⟨⟨b, hb⟩, ⟨v, ho⟩⟩ := H n (List.mem_cons_self n rest)
    obtain ⟨g1, hstep, hframe1, hne1, hbn1, hon1⟩ := closeAllStep_spec hb ho
    have H1 : ∀ k ∈ rest, (∃ b, dfind g1.buttons k = some b) ∧
        (∃ v, dfind g1.outputs k = some v) := by
      intro k hk
      by_cases hkn : k = n
      · subst hkn
        exact ⟨⟨_, hbn1⟩, ⟨_, hon1⟩⟩
      · obtain ⟨⟨bk, hbk⟩, ⟨vk, hvk⟩⟩ := H k (List.mem_cons_of_mem n hk)
        exact ⟨⟨bk, (hne1 k hkn).1.trans hbk⟩, ⟨vk, (hne1 k hkn).2.trans hvk⟩⟩
    obtain ⟨g', hrun, hframe2, hnotin2, hin2⟩ := ih g1 H1
    refine ⟨g', ?_, FrameOk.trans hframe1 hframe2, ?_, ?_⟩
    · unfold close_all_go
      rw [hstep]
      simp only
      exact hrun
    · intro k hk
      have hkn : k ≠ n := fun h => hk (h ▸ List.mem_cons_self n rest)
      have hkr : k ∉ rest := fun h => hk (List.mem_cons_of_mem n h)
      exact ⟨(hnotin2 k hkr).1.trans (hne1 k hkn).1, (hnotin2 k hkr).2.trans (hne1 k hkn).2⟩
    · intro k hk
      by_cases hkr : k ∈ rest
      · exact hin2 k hkr
      · have hkn : k = n := by
          rcases List.mem_cons.mp hk with h | h
          · exact h
          · exact absurd h hkr
        subst hkn
        exact ⟨(hnotin2 k hkr).1.trans hbn1, (hnotin2 k hkr).2.trans hon1⟩


theorem close_all_go_fixed : ∀ (l : List String) (g : Gallery),
    (dkeys g.buttons).Nodup → (dkeys g.outputs).Nodup →
    (∀ k ∈ l, dfind g.buttons k = some { value := false, description := "Show " ++ k } ∧
      dfind g.outputs k = some none) →
    close_all_go g l = some g := by
  intro l
  induction l with
  | nil =>
    intro g _ _ _
    rfl
  | cons n rest ih =>
    intro g hndb hndo H
    have hb := (H n (List.mem_cons_self n rest)).1
    have ho := (H n (List.mem_cons_self n rest)).2
    have hstep : closeAllStep g n = some g := by
      unfold closeAllStep
      rw [hb]
      simp only [Bool.false_eq_true, if_false]
      rw [hide_html_some ho]
      simp only
      have hb1 : dfind ({ g with outputs := dset g.outputs n none } : Gallery).buttons n = some ({ value := false, description := "Show " ++ n } : ToggleButton) := hb
      rw [setDescription_some ("Show " ++ n) hb1]
      exact congrArg some (gallery_eq_of g _ _ (dset_eq_self hndb hb) (dset_eq_self hndo ho))
    unfold close_all_go
    rw [hstep]
    simp only
    exact ih g hndb hndo (fun k hk => H k (List.mem_cons_of_mem n hk))


theorem drep_drep {α : Type} (d : Dict α) (k : String) (v : α) :
    drep (drep d k v) k v = drep d k v := by
  induction d with
  | nil => rfl
  | cons p rest ih =>
    obtain ⟨a, b⟩ := p
    by_cases hk : a = k
    · simp [drep_cons, hk, ih]
    · simp [drep_cons, hk, ih]


theorem not_mem_dkeys_of_not_contains {α : Type} {d : Dict α} {k : String}
    (h : dcontains d k = false) : k ∉ dkeys d := by
  intro hm
  rw [dcontains_iff_mem.mpr hm] at h
  exact Bool.noConfusion h


theorem dset_dset {α : Type} (d : Dict α) (k : String) (v : α) :
    dset (dset d k v) k v = dset d k v := by
  have hc : dcontains (dset d k v) k = true := dcontains_of_dfind (dfind_dset_self d k v)
  show (if dcontains (dset d k v) k = true then drep (dset d k v) k v
    else dset d k v ++ [(k, v)]) = dset d k v
  simp only [hc, if_true]
  unfold dset
  by_cases h : dcontains d k = true
  · simp only [h, if_true]
    exact drep_drep d k v
  · simp only [h, Bool.false_eq_true, if_false]
    have hnm : k ∉ dkeys d := not_mem_dkeys_of_not_contains (by simpa using h)
    unfold drep
    rw [List.map_append]
    have h1 : d.map (fun p => if p.1 = k then (k, v) else p) = d := drep_eq_self_of_not_mem v hnm
    rw [h1]
    simp


/-- C4: starting from PageSet `{"A": "x", "B": "y"}`, `rename_set("A", "B")`
yields PageSet `{"B": "x"}` — A's content survives under the name B, the
original content of B is lost, and exactly one entry remains. -/
theorem C4_rename_collision :
    (rename_set { image_sets := [("A", "x"), ("B", "y")], buttons := [], outputs := [], rows := [] } "A" "B").image_sets = [("B", "x")] := by
  decide


/-- C8: removing a page name not present in the PageSet, or renaming from a
name not present, leaves the whole gallery state (PageSet and UI dicts)
unchanged and raises no error. -/
theorem C8_noop_safety (g : Gallery) (name old new : String)
    (h1 : dcontains g.image_sets name = false) (h2 : dcontains g.image_sets old = false) :
    remove_set g name = g ∧ rename_set g old new = g := by
  constructor
  · unfold remove_set
    rw [dpop_eq_self h1]
  · unfold rename_set
    rw [dfind_eq_none h2]


/-- C8 witness: removing or renaming the absent name "Z" on a concrete
one-page gallery is a no-op. -/
theorem C8_noop_safety_witness :
    dcontains ({ image_sets := [("A", "x")], buttons := [], outputs := [], rows := [] } : Gallery).image_sets "Z" = false ∧
    remove_set { image_sets := [("A", "x")], buttons := [], outputs := [], rows := [] } "Z" =
      { image_sets := [("A", "x")], buttons := [], outputs := [], rows := [] } ∧
    rename_set { image_sets := [("A", "x")], buttons := [], outputs := [], rows := [] } "Z" "W" =
      { image_sets := [("A", "x")], buttons := [], outputs := [], rows := [] } :=
  ⟨by decide,
    (C8_noop_safety { image_sets := [("A", "x")], buttons := [], outputs := [], rows := [] }
      "Z" "Z" "W" (by decide) (by decide)).1,
    (C8_noop_safety { image_sets := [("A", "x")], buttons := [], outputs := [], rows := [] }
      "Z" "Z" "W" (by decide) (by decide)).2⟩


/-- C9: `replace_set(name, html)` applied twice in succession yields a
PageSet identical to applying it once. -/
theorem C9_replace_idem (g : Gallery) (name html : String) :
    replace_set (replace_set g name html) name html = replace_set g name html := by
  unfold replace_set
  exact congrArg (fun d => ({ g with image_sets := d } : Gallery)) (dset_dset g.image_sets name html)


/-- C10: `rename_set(old, new)` re-inserts the renamed entry at the end of
the ordered mapping whenever `new` is not a key other than `old` (including
`new = old`), so after the next `refresh` that page is displayed last; only
when `new` names a distinct pre-existing page does the entry keep that
destination's position. -/
theorem C10_rename_order (g : Gallery) (old new v : String)
    (hold : dfind g.image_sets old = some v) :
    (dcontains (dpop g.image_sets old) new = false →
      (refresh (rename_set g old new)).rows =
        (dkeys g.image_sets).filter (fun x => x ≠ old) ++ [new]) ∧
    (dcontains (dpop g.image_sets old) new = true →
      (refresh (rename_set g old new)).rows =
        (dkeys g.image_sets).filter (fun x => x ≠ old)) := by
  have him : (rename_set g old new).image_sets = dset (dpop g.image_sets old) new v := by
    unfold rename_set
    rw [hold]
  constructor
  · intro hnc
    show dkeys (rename_set g old new).image_sets =
      (dkeys g.image_sets).filter (fun x => x ≠ old) ++ [new]
    rw [him, dkeys_dset_of_not_contains _ hnc, dkeys_dpop]
  · intro hc
    show dkeys (rename_set g old new).image_sets =
      (dkeys g.image_sets).filter (fun x => x ≠ old)
    rw [him, dkeys_dset_of_contains _ hc, dkeys_dpop]


/-- C10 witness: renaming "B" to the fresh name "D" in a three-page gallery
moves the page to the end of the display order after refresh. -/
theorem C10_rename_order_witness :
    dfind threeGallery.image_sets "B" = some "y" ∧
    dcontains (dpop threeGallery.image_sets "B") "D" = false ∧
    (refresh (rename_set threeGallery "B" "D")).rows =
      (dkeys threeGallery.image_sets).filter (fun x => x ≠ "B") ++ ["D"] :=
  ⟨by decide, by decide,
    (C10_rename_order threeGallery "B" "D" "y" (by decide)).1 (by decide)⟩


/-- C6: `refresh` is idempotent — a second refresh with an unchanged
PageSet rebuilds the identical UI tree — the page ordering of the rebuilt
tree is the PageSet's insertion order, and after any refresh every page is
closed: every toggle value is false, every label has the `Show <name>`
form, and every display region is empty. -/
theorem C6_refresh_idem (g : Gallery) :
    refresh (refresh g) = refresh g ∧
    (refresh g).rows = dkeys g.image_sets ∧
    dkeys (refresh g).buttons = dkeys g.image_sets ∧
    (∀ p ∈ (refresh g).buttons, p.2 = { value := false, description := "Show " ++ p.1 }) ∧
    (∀ q ∈ (refresh g).outputs, q.2 = none) := by
  refine ⟨rfl, rfl, dkeys_refresh_buttons g, ?_, ?_⟩
  · intro p hp
    unfold refresh at hp
    simp only at hp
    rcases List.mem_map.mp hp with ⟨q, _, hqe⟩
    rw [← hqe]
  · intro q hq
    unfold refresh at hq
    simp only at hq
    rcases List.mem_map.mp hq with ⟨r, _, hre⟩
    rw [← hre]


/-- C6 witness: on the concrete two-page gallery the A-row button built by
refresh is closed and labelled with the `Show` form. -/
theorem C6_refresh_idem_witness :
    ("A", ({ value := false, description := "Show A" } : ToggleButton)) ∈
      (refresh witnessBase).buttons ∧
    ({ value := false, description := "Show A" } : ToggleButton) =
      { value := false, description := "Show " ++ "A" } :=
  ⟨by decide, (C6_refresh_idem witnessBase).2.2.2.1
    ("A", { value := false, description := "Show A" }) (by decide)⟩


/-- C1: for every sequence of toggle-change events delivered after a
`refresh` (with no PageSet mutation in between), at most one page's toggle
has value true immediately after each event's handler returns.  The
sequence quantifier ranges over all prefixes as well, so the invariant
holds after every intermediate event; the Nodup hypothesis records that a
Python dict cannot hold duplicate keys. -/
theorem C1_exclusivity (g : Gallery) (names : List String) (g' : Gallery)
    (hnd : (dkeys g.image_sets).Nodup)
    (hrun : runToggles (refresh g) names = some g') :
    atMostOneOpen g' := by
  have h0 : atMostOneOpen (refresh g) := by
    unfold atMostOneOpen
    rw [refresh_openCount g]
    exact Nat.zero_le 1
  exact (runToggles_preserves names (refresh_synced g hnd) h0 hrun).2


/-- C1 witness: opening A and then B on the concrete two-page gallery ends
with only B open. -/
theorem C1_exclusivity_witness :
    (dkeys ({ image_sets := [("A", "<img a>"), ("B", "<img b>")], buttons := [], outputs := [], rows := [] } : Gallery).image_sets).Nodup ∧
    runToggles (refresh { image_sets := [("A", "<img a>"), ("B", "<img b>")], buttons := [], outputs := [], rows := [] }) ["A", "B"] = some witnessRun ∧
    atMostOneOpen witnessRun :=
  ⟨by decide, by decide,
    C1_exclusivity { image_sets := [("A", "<img a>"), ("B", "<img b>")], buttons := [], outputs := [], rows := [] }
      ["A", "B"] witnessRun (by decide) (by decide)⟩


/-- C2 counterexample: from a state where both pages are closed but page
A's display region still holds content, toggling page B open clears A's
region — the handler does re-clear the display region of a page that was
already closed, contrary to the claim. -/
theorem C2_counterexample :
    dfind staleGallery.buttons "A" = some { value := false, description := "Show A" } ∧
    dfind staleGallery.outputs "A" = some (some "stale") ∧
    (toggle_event staleGallery "B").bind (fun g' => dfind g'.outputs "A") = some none := by
  decide


/-- C2 (amended): when a closed page's toggle is switched to open, the
handler renders that page's HTML into its region and relabels it `Hide`,
clears the display region of every other page (open or closed alike), and
forces every other open page's toggle to closed; other closed pages keep
their button state unchanged. -/
theorem C2_open_effect (g : Gallery) (name : String) (b : ToggleButton) (html : String)
    (hs : Synced g) (hb : dfind g.buttons name = some b) (hbv : b.value = false)
    (hi : dfind g.image_sets name = some html) :
    ∃ g', toggle_event g name = some g' ∧
      dfind g'.outputs name = some (some html) ∧
      dfind g'.buttons name = some { value := true, description := "Hide " ++ name } ∧
      (∀ k bk, k ≠ name → dfind g.buttons k = some bk → bk.value = true →
        dfind g'.buttons k = some { value := false, description := "Show " ++ k }) ∧
      (∀ k bk, k ≠ name → dfind g.buttons k = some bk → bk.value = false →
        dfind g'.buttons k = some bk) ∧
      (∀ k w, k ≠ name → dfind g.outputs k = some w → dfind g'.outputs k = some none) := by
  obtain ⟨g', html', ht, _, _, _, hi', hbn, hon, hclosed, _, hwsome, _, _⟩ :=
    toggle_open_spec hs hb hbv
  have hh : html' = html := Option.some.inj (hi'.symm.trans hi)
  subst hh
  refine ⟨g', ht, hon, hbn, ?_, ?_, hwsome⟩
  · intro k bk hk hbk hval
    have hres := hclosed k bk hk hbk
    simp only [hval, if_true] at hres
    exact hres
  · intro k bk hk hbk hval
    have hres := hclosed k bk hk hbk
    simp only [hval, Bool.false_eq_true, if_false] at hres
    exact hres


/-- C2 witness: toggling B open on a state where A is open renders B's
HTML, forces A closed, and clears A's region. -/
theorem C2_open_effect_witness :
    Synced openGallery ∧
    dfind openGallery.buttons "B" = some { value := false, description := "Show B" } ∧
    dfind openGallery.image_sets "B" = some "y" ∧
    toggle_event openGallery "B" = some witnessOpenB ∧
    dfind witnessOpenB.outputs "A" = some none ∧
    dfind witnessOpenB.buttons "A" = some { value := false, description := "Show A" } := by
  obtain ⟨g', ht, hon, hbn, hforced, hkeep, hwsome⟩ :=
    C2_open_effect openGallery "B" { value := false, description := "Show B" } "y"
      (by decide) (by decide) rfl (by decide)
  have hg : g' = witnessOpenB := Option.some.inj (ht.symm.trans (by decide))
  subst hg
  exact ⟨by decide, by decide, by decide, ht,
    hwsome "A" (some "x") (by decide) (by decide),
    hforced "A" { value := true, description := "Hide A" } (by decide) (by decide) rfl⟩


/-- C3 counterexample: after `add_set("B", ...)` with no `refresh`, a
toggle event on the pre-existing button A reaches the loop of `_show_html`
and looks up `self._outputs["B"]`, which raises `KeyError` (modelled as
`none`) — so not every dictionary lookup succeeds. -/
theorem C3_counterexample :
    toggle_event (add_set (refresh { image_sets := [("A", "x")], buttons := [], outputs := [], rows := [] }) "B" "y") "A" = none := by
  decide


theorem toggle_synced {g g1 : Gallery} {name : String} (hs : Synced g)
    (ht : toggle_event g name = some g1) : Synced g1 := by
  cases hfb : dfind g.buttons name with
  | none =>
    unfold toggle_event at ht
    rw [hfb] at ht
    simp at ht
  | some b =>
    by_cases hbv : b.value = true
    · obtain ⟨hkb, hko, hnd⟩ := hs
      have hnameO : name ∈ dkeys g.outputs := hko.symm ▸ (hkb ▸ mem_dkeys_of_dfind hfb)
      obtain ⟨v, ho⟩ := dfind_isSome (dcontains_iff_mem.mpr hnameO)
      obtain ⟨g', ht', him, _, hkb', hko', _, _, _, _⟩ := toggle_close_spec hfb hbv ho
      cases Option.some.inj (ht'.symm.trans ht)
      refine ⟨?_, ?_, ?_⟩
      · rw [hkb', hkb, him]
      · rw [hko', hko, him]
      · rw [him]
        exact hnd
    · simp only [Bool.not_eq_true] at hbv
      obtain ⟨g', html, ht', hs', _⟩ := toggle_open_spec hs hfb hbv
      cases Option.some.inj (ht'.symm.trans ht)
      exact hs'


/-- C3 (amended): in a state whose widget dicts are in sync with
`image_sets` — as after any `refresh` not followed by a PageSet mutation —
every toggle event on an existing button and every close-all click
performs only successful dictionary lookups, and both handlers preserve
syncedness, so the property extends to arbitrary event sequences.  The
claim as frozen also asserts success for events delivered after an
unrefreshed `add_set`/`remove_set`/`rename_set`; that part is refuted by
the counterexample. -/
theorem C3_handlers_total (g : Gallery) (name : String)
    (hs : Synced g) (hmem : name ∈ dkeys g.buttons) :
    (toggle_event g name).isSome = true ∧ (close_all g).isSome = true ∧
    (∀ g1, toggle_event g name = some g1 → Synced g1) ∧
    (∀ g1, close_all g = some g1 → Synced g1) := by
  obtain ⟨b, hb⟩ := dfind_isSome (dcontains_iff_mem.mpr hmem)
  have hclose : ∃ gc, close_all g = some gc ∧ FrameOk g gc := by
    obtain ⟨hkb, hko, hnd⟩ := hs
    have H : ∀ k ∈ dkeys g.image_sets, (∃ b, dfind g.buttons k = some b) ∧
        (∃ v, dfind g.outputs k = some v) :=
      fun k hk => ⟨dfind_isSome (dcontains_iff_mem.mpr (hkb.symm ▸ hk)),
        dfind_isSome (dcontains_iff_mem.mpr (hko.symm ▸ hk))⟩
    obtain ⟨gc, hrun, hframe, _, _⟩ := close_all_go_spec (dkeys g.image_sets) g H
    exact ⟨gc, hrun, hframe⟩
  have htog : ∃ g1, toggle_event g name = some g1 := by
    by_cases hbv : b.value = true
    · obtain ⟨hkb, hko, hnd⟩ := hs
      have hnameO : name ∈ dkeys g.outputs := hko.symm ▸ (hkb ▸ mem_dkeys_of_dfind hb)
      obtain ⟨v, ho⟩ := dfind_isSome (dcontains_iff_mem.mpr hnameO)
      obtain ⟨g', ht, _⟩ := toggle_close_spec hb hbv ho
      exact ⟨g', ht⟩
    · simp only [Bool.not_eq_true] at hbv
      obtain ⟨g', html, ht, _⟩ := toggle_open_spec hs hb hbv
      exact ⟨g', ht⟩
  refine ⟨?_, ?_, fun g1 ht => toggle_synced hs ht, ?_⟩
  · obtain ⟨g1, ht⟩ := htog
    rw [ht]
    rfl
  · obtain ⟨gc, hc, _⟩ := hclose
    rw [hc]
    rfl
  · intro g1 hc1
    obtain ⟨gc, hc, hframe⟩ := hclose
    cases Option.some.inj (hc.symm.trans hc1)
    refine ⟨?_, ?_, ?_⟩
    · rw [hframe.2.2.1, hs.1, hframe.1]
    · rw [hframe.2.2.2, hs.2.1, hframe.1]
    · rw [hframe.1]
      exact hs.2.2


/-- C3 witness: on the synced two-page state both handlers succeed. -/
theorem C3_handlers_total_witness :
    Synced witnessRun ∧ "A" ∈ dkeys witnessRun.buttons ∧
    (toggle_event witnessRun "A").isSome = true ∧ (close_all witnessRun).isSome = true :=
  ⟨by decide, by decide,
    (C3_handlers_total witnessRun "A" (by decide) (by decide)).1,
    (C3_handlers_total witnessRun "A" (by decide) (by decide)).2.1⟩


/-- C5: invoking the close-all handler from a synced state — the states
reached by toggle events after a refresh are exactly such states, by
`runToggles_preserves` — clears every page's display region, forces every
open toggle closed, sets every label to the `Show <name>` form, and is
idempotent: running it again returns the very same state. -/
theorem C5_close_all (g : Gallery) (hs : Synced g) :
    ∃ g', close_all g = some g' ∧
      (∀ k, k ∈ dkeys g.image_sets →
        dfind g'.buttons k = some { value := false, description := "Show " ++ k } ∧
        dfind g'.outputs k = some none) ∧
      close_all g' = some g' := by
  obtain ⟨hkb, hko, hnd⟩ := hs
  have H : ∀ k ∈ dkeys g.image_sets, (∃ b, dfind g.buttons k = some b) ∧
      (∃ v, dfind g.outputs k = some v) :=
    fun k hk => ⟨dfind_isSome (dcontains_iff_mem.mpr (hkb.symm ▸ hk)),
      dfind_isSome (dcontains_iff_mem.mpr (hko.symm ▸ hk))⟩
  obtain ⟨g', hrun, hframe, hnotin, hin⟩ := close_all_go_spec (dkeys g.image_sets) g H
  have hndb' : (dkeys g'.buttons).Nodup := by
    rw [hframe.2.2.1, hkb]
    exact hnd
  have hndo' : (dkeys g'.outputs).Nodup := by
    rw [hframe.2.2.2, hko]
    exact hnd
  refine ⟨g', hrun, hin, ?_⟩
  show close_all_go g' (dkeys g'.image_sets) = some g'
  rw [hframe.1]
  exact close_all_go_fixed (dkeys g.image_sets) g' hndb' hndo' hin


/-- C5 witness: close-all on the state where A is open yields the fully
closed state and fixes it. -/
theorem C5_close_all_witness :
    Synced openGallery ∧
    close_all openGallery = some closedGallery ∧
    dfind closedGallery.buttons "A" = some { value := false, description := "Show A" } ∧
    dfind closedGallery.outputs "A" = some none ∧
    close_all closedGallery = some closedGallery := by
  obtain ⟨g', hrun, hin, hfix⟩ := C5_close_all openGallery (by decide)
  have hg : g' = closedGallery := Option.some.inj (hrun.symm.trans (by decide))
  subst hg
  exact ⟨by decide, hrun, (hin "A" (by decide)).1, (hin "A" (by decide)).2, hfix⟩


/-- C7: toggling an open page closed clears that page's display region,
reverts its label to the `Show <name>` form, and leaves every other page's
toggle value, label, and display region unchanged, along with the PageSet
and the widget-tree order. -/
theorem C7_close_toggle (g : Gallery) (name : String) (b : ToggleButton) (v : Option String)
    (hb : dfind g.buttons name = some b) (hbv : b.value = true)
    (ho : dfind g.outputs name = some v) :
    ∃ g', toggle_event g name = some g' ∧
      dfind g'.outputs name = some none ∧
      dfind g'.buttons name = some { value := false, description := "Show " ++ name } ∧
      g'.image_sets = g.image_sets ∧ g'.rows = g.rows ∧
      (∀ k, k ≠ name → dfind g'.buttons k = dfind g.buttons k ∧
        dfind g'.outputs k = dfind g.outputs k) := by
  obtain ⟨g', ht, him, hrows, _, _, hbn, hon, hne, _⟩ := toggle_close_spec hb hbv ho
  exact ⟨g', ht, hon, hbn, him, hrows, hne⟩


/-- C7 witness: closing the open page A leaves page B's button and region
untouched. -/
theorem C7_close_toggle_witness :
    dfind openGallery.buttons "A" = some { value := true, description := "Hide A" } ∧
    dfind openGallery.outputs "A" = some (some "x") ∧
    toggle_event openGallery "A" = some closedGallery ∧
    dfind closedGallery.outputs "A" = some none ∧
    dfind closedGallery.buttons "B" = dfind openGallery.buttons "B" := by
  obtain ⟨g', ht, hon, hbn, him, hrows, hne⟩ :=
    C7_close_toggle openGallery "A" { value := true, description := "Hide A" } (some "x")
      (by decide) rfl (by decide)
  have hg : g' = closedGallery := Option.some.inj (ht.symm.trans (by decide))
  subst hg
  exact ⟨by decide, by decide, ht, hon, (hne "B" (by decide)).1⟩

